import Mathlib

/-
Verification of the agent execution core of the apehost-tamarin-ui
repository: a shallow embedding, in Lean 4, of

  * the tool-call schemas and helpers  (src/lib/schemas/api.ts),
  * the tool registry                  (src/lib/services/tool-registry.ts),
  * the tool executor                  (src/lib/services/tool-executor.ts),
  * the chat context-window manager    (src/lib/services/chat-service.ts),
  * the agent orchestrator             (src/lib/services/agent-orchestrator.ts),

followed by theorems settling the behavioural claims about that code.

Modelling conventions, applied throughout:

  * JavaScript values carried through tool calls are modelled by the
    `Json` type below.  `JSON.parse` is a platform primitive, not code of
    this repository; it is modelled as an environment-supplied function.
    `JSON.stringify` is modelled by the executable `Json.stringify`.
  * `Date.now()` timestamps, measured durations and `nanoid()` identifiers
    are wall-clock / randomness effects; timestamp fields are omitted from
    the embedded records and identifiers are environment parameters.
  * JavaScript string truthiness (`x || y`, `if (x)`) is modelled
    explicitly: the empty string is falsy.
  * The upstream model (`lmstudioService.chatCompletion` and the SSE
    parsing loop of the orchestrator, lines 239-292) is modelled at the
    parsed-delta level: the environment supplies, per turn, either the
    list of stream deltas or a thrown error.
  * Async generators become functions returning the list of yielded
    events together with the final state.
-/

namespace Tamarin

/-! ## JSON values

A mutual inductive is used (instead of nesting `List`) so that all
functions over JSON compute by structural recursion. -/

mutual

inductive Json where
  | null
  | bool (b : Bool)
  | num (n : Int)
  | str (s : String)
  | arr (xs : JsonList)
  | obj (fs : JsonFields)

inductive JsonList where
  | nil
  | cons (head : Json) (tail : JsonList)

inductive JsonFields where
  | nil
  | cons (key : String) (value : Json) (tail : JsonFields)

end

/-- Escape one character the way `JSON.stringify` escapes string data
(quotation mark and backslash; other characters pass through). -/
def escapeChar (c : Char) : String :=
  if c = '"' then "\\\"" else if c = '\\' then "\\\\" else String.singleton c

/-- Escape a string for inclusion in `JSON.stringify` output. -/
def escapeString (s : String) : String :=
  String.join (s.toList.map escapeChar)

mutual

/-- Model of the platform primitive `JSON.stringify` on `Json` values. -/
def Json.stringify : Json → String
  | .null => "null"
  | .bool true => "true"
  | .bool false => "false"
  | .num n => toString n
  | .str s => "\"" ++ escapeString s ++ "\""
  | .arr xs => "[" ++ JsonList.stringifyItems xs ++ "]"
  | .obj fs => "\x7b" ++ JsonFields.stringifyItems fs ++ "\x7d"

/-- Comma-separated rendering of JSON array elements. -/
def JsonList.stringifyItems : JsonList → String
  | .nil => ""
  | .cons x .nil => Json.stringify x
  | .cons x rest => Json.stringify x ++ "," ++ JsonList.stringifyItems rest

/-- Comma-separated rendering of JSON object fields. -/
def JsonFields.stringifyItems : JsonFields → String
  | .nil => ""
  | .cons k v .nil => "\"" ++ escapeString k ++ "\":" ++ Json.stringify v
  | .cons k v rest =>
      "\"" ++ escapeString k ++ "\":" ++ Json.stringify v ++ "," ++ JsonFields.stringifyItems rest

end

/-! ## Tool-call schemas (src/lib/schemas/api.ts) -/

/-- ToolCallSchema (api.ts lines 259-268): id, type "function", and a
function with a name and a raw JSON-string argument blob.  The constant
`type` discriminator is omitted. -/
structure ToolCall where
  id : String
  name : String
  arguments : String

/-- ParsedToolCallSchema (api.ts lines 273-279): the JSON arguments are
resolved into a value. -/
structure ParsedToolCall where
  id : String
  name : String
  arguments : Json

/-- ToolResultSchema (api.ts lines 288-294). -/
structure ToolResult where
  toolCallId : String
  name : String
  result : Json
  error : Option String
  executionTimeMs : Option Nat

/-- ToolResultMessageSchema (api.ts lines 329-334). -/
structure ToolResultMessage where
  role : String
  content : String
  tool_call_id : String
  name : Option String

/-- MessageSchema: role, content, and the optional tool-related fields the
orchestrator reads and writes. -/
structure Message where
  role : String
  content : String
  tool_call_id : Option String
  name : Option String
  tool_calls : Option (List ToolCall)

/-- Builds a plain (no tool fields) message, the common case. -/
def Message.plain (role content : String) : Message :=
  { role := role, content := content, tool_call_id := none, name := none, tool_calls := none }

/-- Model of `JSON.parse`: a platform primitive supplied by the
environment.  `Except.error` is the message of the thrown `SyntaxError`. -/
def JsonParse : Type := String → Except String Json

/-- Successful-parse view of `JsonParse`, for call sites that only
distinguish success from failure. -/
def JsonParse.opt (p : JsonParse) (s : String) : Option Json :=
  match p s with
  | .ok v => some v
  | .error _ => none

/-- parseToolCallArguments (api.ts lines 345-358): parse the raw argument
blob; any thrown parse error is caught and turned into `none`. -/
def parseToolCallArguments (parse : JsonParse) (toolCall : ToolCall) : Option ParsedToolCall :=
  match parse toolCall.arguments with
  | .ok args => some { id := toolCall.id, name := toolCall.name, arguments := args }
  | .error _ => none

/-- formatToolResultContent (api.ts lines 363-368).  JavaScript truthiness:
`if (result.error)` is false for an absent and for an empty error string. -/
def formatToolResultContent (result : ToolResult) : String :=
  match result.error with
  | some e => if e = "" then Json.stringify result.result
              else Json.stringify (.obj (.cons "error" (.str e) .nil))
  | none => Json.stringify result.result

/-- createToolResultMessage (api.ts lines 373-380). -/
def createToolResultMessage (result : ToolResult) : ToolResultMessage :=
  { role := "tool"
    content := formatToolResultContent result
    tool_call_id := result.toolCallId
    name := some result.name }

/-! ## Tool registry (src/lib/services/tool-registry.ts) -/

/-- RegisteredTool (tool-registry.ts lines 23-29).  A handler either
returns a value or throws; a thrown error is modelled as `Except.error`
carrying the error's message.  Parameter specs and category metadata are
not read by `execute` and are omitted. -/
structure RegisteredTool where
  handler : Json → Except String Json
  enabled : Bool

/-- The registry's tool map, keyed by tool name. -/
def ToolRegistry : Type := String → Option RegisteredTool

/-- ToolRegistryImpl.execute (tool-registry.ts lines 139-180).  `elapsed`
stands for the wall-clock difference `Date.now() - startTime` recorded in
the returned result. -/
def ToolRegistry.execute (reg : ToolRegistry) (elapsed : Nat) (call : ParsedToolCall) :
    ToolResult :=
  match reg call.name with
  | none =>
      { toolCallId := call.id, name := call.name, result := .null
        error := some ("Tool \"" ++ call.name ++ "\" not found")
        executionTimeMs := some elapsed }
  | some tool =>
      if tool.enabled = false then
        { toolCallId := call.id, name := call.name, result := .null
          error := some ("Tool \"" ++ call.name ++ "\" is disabled")
          executionTimeMs := some elapsed }
      else
        match tool.handler call.arguments with
        | .ok value =>
            { toolCallId := call.id, name := call.name, result := value
              error := none, executionTimeMs := some elapsed }
        | .error msg =>
            { toolCallId := call.id, name := call.name, result := .null
              error := some msg, executionTimeMs := some elapsed }

/-! ## Tool executor (src/lib/services/tool-executor.ts) -/

/-- Execution environment of the tool executor: the registry, the
`JSON.parse` primitive, and the wall-clock duration each call's
`toolRegistry.execute` promise takes to settle (which decides the race
against the per-call timeout). -/
structure ExecEnv where
  registry : ToolRegistry
  parse : JsonParse
  duration : ParsedToolCall → Nat

/-- ExecutionOptions (tool-executor.ts lines 21-34), with its defaults. -/
structure ExecutionOptions where
  timeout : Nat
  maxConcurrent : Nat
  continueOnError : Bool

/-- DEFAULT_OPTIONS (tool-executor.ts lines 30-34). -/
def defaultExecutionOptions : ExecutionOptions :=
  { timeout := 30000, maxConcurrent := 5, continueOnError := true }

/-- executeWithTimeout (tool-executor.ts lines 39-61): the call races a
rejection timer; if the handler's promise takes longer than `timeout`
the catch converts the timer's error into an error result (with no
execution time recorded). -/
def executeWithTimeout (env : ExecEnv) (call : ParsedToolCall) (timeout : Nat) : ToolResult :=
  if timeout < env.duration call then
    { toolCallId := call.id, name := call.name, result := .null
      error := some ("Tool \"" ++ call.name ++ "\" execution timed out after "
        ++ toString timeout ++ "ms")
      executionTimeMs := none }
  else
    ToolRegistry.execute env.registry (env.duration call) call

/-- The parse phase of executeToolCalls (lines 74-89): positions whose
raw call fails to parse receive their error result immediately; valid
positions start as JavaScript array holes, modelled by `none`. -/
def initialResults (env : ExecEnv) (toolCalls : List ToolCall) : List (Option ToolResult) :=
  toolCalls.map (fun tc =>
    match parseToolCallArguments env.parse tc with
    | some _ => none
    | none =>
        some { toolCallId := tc.id, name := tc.name, result := .null
               error := some "Failed to parse tool call arguments"
               executionTimeMs := none })

/-- The `validCalls` list of executeToolCalls (lines 77-89): the parsed
calls paired with their original positions, in input order. -/
def validCalls (env : ExecEnv) (toolCalls : List ToolCall) : List (Nat × ParsedToolCall) :=
  toolCalls.enum.filterMap (fun p =>
    (parseToolCallArguments env.parse p.2).map (fun pc => (p.1, pc)))

/-- The batch loop of executeToolCalls (lines 92-111): take `mc` pending
calls, execute each against its timeout, write every result back at the
call's original position, and stop early when `continueOnError` is false
and the batch contained an error.  `fuel` bounds the recursion and is
instantiated with the number of pending calls, which suffices whenever
`mc ≥ 1`; the JavaScript loop would not terminate for `mc = 0`. -/
def runBatches (env : ExecEnv) (timeout mc : Nat) (cont : Bool) :
    Nat → List (Nat × ParsedToolCall) → List (Option ToolResult) → List (Option ToolResult)
  | 0, _, results => results
  | _ + 1, [], results => results
  | fuel + 1, p :: pending, results =>
      let batch := (p :: pending).take mc
      let rest := (p :: pending).drop mc
      let batchResults := batch.map (fun q => (q.1, executeWithTimeout env q.2 timeout))
      let results' := batchResults.foldl (fun acc q => acc.set q.1 (some q.2)) results
      if cont = false ∧ batchResults.any (fun q => q.2.error.isSome) then results'
      else runBatches env timeout mc cont fuel rest results'

/-- executeToolCalls (tool-executor.ts lines 66-114).  The returned list
has one entry per input call; `none` models a JavaScript array hole (a
position never assigned because an early stop skipped its batch). -/
def executeToolCalls (env : ExecEnv) (toolCalls : List ToolCall) (opts : ExecutionOptions) :
    List (Option ToolResult) :=
  let valid := validCalls env toolCalls
  runBatches env opts.timeout opts.maxConcurrent opts.continueOnError
    valid.length valid (initialResults env toolCalls)

/-- hasToolCalls (tool-executor.ts lines 130-134), on assistant messages. -/
def hasToolCalls (m : Message) : Bool :=
  match m.tool_calls with
  | some tcs => decide (0 < tcs.length)
  | none => false

/-! ## Chat context manager (src/lib/services/chat-service.ts) -/

/-- estimateTokenCount (chat-service.ts lines 12-14): `ceil(length / 4)`. -/
def estimateTokenCount (text : String) : Nat :=
  (text.length + 3) / 4

/-- calculateConversationTokens (chat-service.ts lines 19-24): content
tokens plus a fixed 4-token overhead per message. -/
def calculateConversationTokens (messages : List Message) : Nat :=
  messages.foldl (fun total msg => total + estimateTokenCount msg.content + 4) 0

/-- WindowingStrategy (chat-service.ts lines 29-32). -/
inductive WindowingStrategy where
  | truncateOldest
  | truncateMiddle
  | summarize

/-- ContextWindowOptions (chat-service.ts lines 34-43) after merging with
DEFAULT_OPTIONS: every field resolved. -/
structure ContextWindowOptions where
  maxTokens : Int
  strategy : WindowingStrategy
  minMessages : Nat
  keepSystemMessage : Bool

/-- The newest-to-oldest collection walk of truncateOldest (chat-service.ts
lines 113-125), on the reversed message list: include a message while it
fits the remaining budget or the kept count is below the floor; stop at
the first message that does neither. -/
def collectNewest (minMessages : Nat) : Int → Nat → List Message → List Message
  | _, _, [] => []
  | available, kept, m :: rest =>
      let t : Int := estimateTokenCount m.content + 4
      if 0 ≤ available - t ∨ kept < minMessages then
        m :: collectNewest minMessages (available - t) (kept + 1) rest
      else []

/-- truncateOldest (chat-service.ts lines 99-133). -/
def truncateOldest (systemMessage : Option Message) (messages : List Message)
    (maxTokens : Int) (minMessages : Nat) : List Message :=
  let availableTokens : Int :=
    maxTokens - (match systemMessage with
      | some m => (estimateTokenCount m.content + 4 : Int)
      | none => 0)
  let result := (collectNewest minMessages availableTokens 0 messages.reverse).reverse
  match systemMessage with
  | some m => m :: result
  | none => result

/-- truncateMiddle (chat-service.ts lines 138-185). -/
def truncateMiddle (systemMessage : Option Message) (messages : List Message)
    (maxTokens : Int) (minMessages : Nat) : List Message :=
  if messages.length ≤ minMessages * 2 then
    truncateOldest systemMessage messages maxTokens minMessages
  else
    let availableTokens : Int :=
      maxTokens - (match systemMessage with
        | some m => (estimateTokenCount m.content + 4 : Int)
        | none => 0)
    let keepFirst := max (minMessages / 2) 1
    let keepLast := minMessages - keepFirst
    let firstMessages := messages.take keepFirst
    let lastMessages := messages.drop (messages.length - keepLast)
    let keptTokens : Int := calculateConversationTokens (firstMessages ++ lastMessages)
    if availableTokens < keptTokens then
      truncateOldest systemMessage messages maxTokens minMessages
    else
      let truncatedMarker := Message.plain "system"
        ("[" ++ toString (messages.length - keepFirst - keepLast)
          ++ " messages truncated for context window]")
      let result := firstMessages ++ truncatedMarker :: lastMessages
      match systemMessage with
      | some m => m :: result
      | none => result

/-- The system-message separation of applyContextWindow (chat-service.ts
lines 70-77): when the system message is to be kept and the first message
has role "system", split it off; otherwise keep the full list. -/
def splitSystem : List Message → Bool → Option Message × List Message
  | [], _ => (none, [])
  | m :: rest, keepSystemMessage =>
      if keepSystemMessage && decide (m.role = "system") then (some m, rest)
      else (none, m :: rest)

/-- applyContextWindow (chat-service.ts lines 55-94) with every option
already resolved (the Partial-options merge of lines 59-60). -/
def applyContextWindow (messages : List Message) (opts : ContextWindowOptions) :
    List Message :=
  if (calculateConversationTokens messages : Int) ≤ opts.maxTokens then messages
  else
    let sp := splitSystem messages opts.keepSystemMessage
    match opts.strategy with
    | .truncateOldest => truncateOldest sp.1 sp.2 opts.maxTokens opts.minMessages
    | .truncateMiddle => truncateMiddle sp.1 sp.2 opts.maxTokens opts.minMessages
    | .summarize => truncateOldest sp.1 sp.2 opts.maxTokens opts.minMessages

/-! ## Agent orchestrator (src/lib/services/agent-orchestrator.ts)

The orchestrator's async generators `runAgent`, `executeAgentLoop` and
`executeTools` are embedded as functions returning the list of yielded
`AgentStreamEvent`s together with the final mutable state. -/

/-- AgentRunStatus (schemas/agents.ts). -/
inductive AgentRunStatus where
  | pending
  | executing
  | waiting_confirmation
  | completed
  | failed
  | cancelled
  deriving DecidableEq

/-- AgentBehavior (schemas/agents.ts lines 35-48).  `runTimeoutMs` arms
the wall-clock abort timer, which the embedding models through the abort
schedule of the environment instead. -/
structure AgentBehavior where
  maxToolCallsPerTurn : Nat
  maxTurns : Nat
  autoContinue : Bool
  stopOnError : Bool
  requireConfirmation : Bool

/-- AgentDefinition: the fields the run loop reads.  Display metadata,
planning tags, timestamps and the generation parameters that are passed
through to the model request unchanged are omitted. -/
structure AgentDefinition where
  id : String
  systemPrompt : String
  tools : List String
  behavior : AgentBehavior
  preferredModel : Option String

/-- AgentStep types (schemas/agents.ts). -/
inductive StepType where
  | thinking
  | tool_call
  | tool_result
  | response
  | error
  deriving DecidableEq

/-- AgentStep: the timestamp and duration fields (wall clock) are
omitted. -/
structure AgentStep where
  index : Nat
  type : StepType
  content : String
  toolName : Option String
  toolArgs : Option Json
  toolResult : Option Json
  error : Option String

/-- Builds a step carrying only an index, a type and content. -/
def AgentStep.basic (index : Nat) (type : StepType) (content : String) : AgentStep :=
  { index := index, type := type, content := content
    toolName := none, toolArgs := none, toolResult := none, error := none }

/-- AgentRun (schemas/agents.ts): the mutable execution record.  The
start and end timestamps and token-usage summary are omitted. -/
structure AgentRun where
  id : String
  agentId : String
  status : AgentRunStatus
  input : String
  steps : List AgentStep
  messages : List Message
  currentTurn : Nat
  totalToolCalls : Nat
  output : Option String
  error : Option String

/-- AgentStreamEvent: the event types with the payload fields each
carries (agent-orchestrator.ts lines 503-582). -/
inductive AgentStreamEvent where
  | status (status : AgentRunStatus)
  | step (s : AgentStep)
  | content (content : String)
  | tool_call (s : AgentStep)
  | tool_result (s : AgentStep)
  | error (error : String)
  | done (run : AgentRun)

/-- One parsed chunk of the model's SSE stream, as consumed by the loop
of lines 257-292: a content delta or a tool-call fragment list.  A chunk
carrying both fields is represented as a content delta followed by a
tool-call delta. -/
inductive ModelDelta where
  | content (s : String)
  | tool_calls (tcs : List ToolCall)

/-- Outcome of one turn's model invocation: the delta stream, or the
error thrown by `lmstudioService.chatCompletion` / the stream reader. -/
inductive TurnResponse where
  | success (deltas : List ModelDelta)
  | failure (msg : String)

/-- Environment of one orchestrator run: the model's behaviour per turn,
the Tool Executor's outcome per parsed call (the single result of
`executeToolCalls([parsedCall])` at line 407), `JSON.parse`, and the
abort-signal state observed at the top of each loop iteration (armed by
the `runTimeoutMs` timer or `cancelRun`). -/
structure OrchestratorEnv where
  turnResponse : Nat → TurnResponse
  toolExec : ParsedToolCall → ToolResult
  parse : JsonParse
  abortedAt : Nat → Bool

/-- The delta-consumption loop (lines 257-292): content deltas accumulate
and emit a `content` event each; every tool-call delta overwrites the
buffered assistant message, snapshotting the content accumulated so far
(last-writer-wins, lines 280-287).  Returns the events, the accumulated
content and the buffered assistant message. -/
def processDeltas : List ModelDelta → String → Option Message →
    List AgentStreamEvent × String × Option Message
  | [], acc, am => ([], acc, am)
  | .content s :: rest, acc, am =>
      let r := processDeltas rest (acc ++ s) am
      (.content s :: r.1, r.2)
  | .tool_calls tcs :: rest, acc, _am =>
      processDeltas rest acc
        (some { role := "assistant", content := acc
                tool_call_id := none, name := none, tool_calls := some tcs })

/-- How `executeTools` relinquished control: the per-call loop ran to the
end, the generator returned early after a stop-on-error result, or an
exception escaped (the `JSON.parse` of a call's arguments at line 393,
which runs before that call's `tool_call` step is emitted). -/
inductive ToolsOutcome where
  | completed
  | stopped
  | threw (msg : String)

/-- JavaScript `result.error || fallback`: an absent or empty error string
selects the fallback. -/
def jsErrorOr (error : Option String) (fallback : String) : String :=
  match error with
  | some e => if e = "" then fallback else e
  | none => fallback

/-- JavaScript truthiness of `result.error`. -/
def jsErrTruthy (error : Option String) : Bool :=
  match error with
  | some e => decide (e ≠ "")
  | none => false

/-- executeTools (agent-orchestrator.ts lines 379-466): per call, emit a
`tool_call` step and event, execute through the Tool Executor, append the
`tool` message, emit a `tool_result` step and event, and return early
(status `failed`) when the result carries an error and `stopOnError` is
set.  `arguments || "\x7b\x7d"` makes an empty blob parse as the empty
object. -/
def executeTools (env : OrchestratorEnv) (agent : AgentDefinition) :
    AgentRun → List ToolCall → List AgentStreamEvent × AgentRun × ToolsOutcome
  | run, [] => ([], run, .completed)
  | run, tc :: rest =>
      match env.parse (if tc.arguments = "" then "\x7b\x7d" else tc.arguments) with
      | .error msg => ([], run, .threw msg)
      | .ok args =>
          let callStep : AgentStep :=
            { index := run.steps.length, type := .tool_call
              content := "Calling tool: " ++ tc.name
              toolName := some tc.name, toolArgs := some args
              toolResult := none, error := none }
          let callEvStep : AgentStep :=
            { index := 0, type := .tool_call
              content := "Calling " ++ tc.name
              toolName := some tc.name, toolArgs := some args
              toolResult := none, error := none }
          let run := { run with steps := run.steps ++ [callStep] }
          let parsedCall : ParsedToolCall := { id := tc.id, name := tc.name, arguments := args }
          let result := env.toolExec parsedCall
          let content := jsErrorOr result.error (Json.stringify result.result)
          let toolMessage : Message :=
            { role := "tool", content := content
              tool_call_id := some tc.id, name := some tc.name, tool_calls := none }
          let run := { run with messages := run.messages ++ [toolMessage] }
          let resultStep : AgentStep :=
            { index := run.steps.length, type := .tool_result
              content := content
              toolName := some tc.name, toolArgs := none
              toolResult := some result.result, error := result.error }
          let run := { run with steps := run.steps ++ [resultStep] }
          let resultEvStep : AgentStep :=
            { index := 0, type := .tool_result
              content := content
              toolName := some result.name, toolArgs := none
              toolResult := some result.result, error := result.error }
          let evs := [AgentStreamEvent.step callStep, .tool_call callEvStep,
            .step resultStep, .tool_result resultEvStep]
          if jsErrTruthy result.error && agent.behavior.stopOnError then
            (evs, { run with status := .failed, error := result.error }, .stopped)
          else
            let r := executeTools env agent run rest
            (evs ++ r.1, r.2)

/-- How one iteration of the while loop relinquished control: `return`
(skipping the post-loop fallback), `break` (autoContinue disabled), or
fall-through to the next iteration. -/
inductive TurnOutcome where
  | ret
  | brk
  | cont

/-- One iteration of the while body after the abort check (lines
217-365): increment the turn, emit the thinking step, consume the model
response, then either finish (no tool calls), run the tools (with the
pre-execution truncation bookkeeping of lines 310-319), or record a
model error. -/
def runTurn (env : OrchestratorEnv) (agent : AgentDefinition) (run : AgentRun) :
    List AgentStreamEvent × AgentRun × TurnOutcome :=
  let run := { run with currentTurn := run.currentTurn + 1 }
  let thinkStep := AgentStep.basic run.steps.length .thinking
    ("Turn " ++ toString run.currentTurn ++ ": Processing...")
  let run := { run with steps := run.steps ++ [thinkStep] }
  let evs0 := [AgentStreamEvent.step thinkStep]
  match env.turnResponse run.currentTurn with
  | .failure msg =>
      let errStep : AgentStep :=
        { index := run.steps.length, type := .error, content := msg
          toolName := none, toolArgs := none, toolResult := none, error := some msg }
      let run := { run with steps := run.steps ++ [errStep] }
      let evs := evs0 ++ [AgentStreamEvent.step errStep]
      if agent.behavior.stopOnError then
        (evs, { run with status := .failed, error := some msg }, .ret)
      else
        (evs, run, .cont)
  | .success deltas =>
      let pd := processDeltas deltas "" none
      let accumulatedContent := pd.2.1
      let assistantMessage := pd.2.2.getD (Message.plain "assistant" accumulatedContent)
      let run := { run with messages := run.messages ++ [assistantMessage] }
      if hasToolCalls assistantMessage then
        let toolCalls := assistantMessage.tool_calls.getD []
        let run := { run with totalToolCalls := run.totalToolCalls + toolCalls.length }
        let truncating := decide (agent.behavior.maxToolCallsPerTurn < toolCalls.length)
        let limitStep := AgentStep.basic run.steps.length .thinking
          ("Limiting tool calls from " ++ toString toolCalls.length ++ " to "
            ++ toString agent.behavior.maxToolCallsPerTurn)
        let run :=
          if truncating then
            { run with
              steps := run.steps ++ [limitStep]
              messages := run.messages.dropLast ++
                [{ assistantMessage with
                   tool_calls := some (toolCalls.take agent.behavior.maxToolCallsPerTurn) }] }
          else run
        let evs1 := if truncating then [AgentStreamEvent.step limitStep] else []
        let run :=
          if agent.behavior.requireConfirmation then
            { run with status := .waiting_confirmation }
          else run
        let evs2 := if agent.behavior.requireConfirmation then
            [AgentStreamEvent.status .waiting_confirmation]
          else []
        let et := executeTools env agent run toolCalls
        let evs := evs0 ++ pd.1 ++ evs1 ++ evs2 ++ et.1
        match et.2.2 with
        | .completed =>
            if agent.behavior.autoContinue then (evs, et.2.1, .cont)
            else (evs, et.2.1, .brk)
        | .stopped =>
            if agent.behavior.autoContinue then (evs, et.2.1, .cont)
            else (evs, et.2.1, .brk)
        | .threw msg =>
            let run' := et.2.1
            let errStep : AgentStep :=
              { index := run'.steps.length, type := .error, content := msg
                toolName := none, toolArgs := none, toolResult := none, error := some msg }
            let run' := { run' with steps := run'.steps ++ [errStep] }
            let evs := evs ++ [AgentStreamEvent.step errStep]
            if agent.behavior.stopOnError then
              (evs, { run' with status := .failed, error := some msg }, .ret)
            else
              (evs, run', .cont)
      else
        let run := { run with status := .completed, output := some accumulatedContent }
        let respStep := AgentStep.basic run.steps.length .response accumulatedContent
        let run := { run with steps := run.steps ++ [respStep] }
        (evs0 ++ pd.1 ++ [AgentStreamEvent.step respStep], run, .ret)

/-- The while loop of executeAgentLoop (lines 210-366).  `fuel` is the
number of remaining iterations allowed by the guard
`currentTurn < maxTurns`; the returned flag is true exactly when control
reaches the post-loop fallback (guard exhausted or `break`). -/
def loopGo (env : OrchestratorEnv) (agent : AgentDefinition) :
    Nat → AgentRun → List AgentStreamEvent × AgentRun × Bool
  | 0, run => ([], run, true)
  | fuel + 1, run =>
      if env.abortedAt run.currentTurn then
        ([.status .cancelled], { run with status := .cancelled }, false)
      else
        let t := runTurn env agent run
        match t.2.2 with
        | .ret => (t.1, t.2.1, false)
        | .brk => (t.1, t.2.1, true)
        | .cont =>
            let r := loopGo env agent fuel t.2.1
            (t.1 ++ r.1, r.2)

/-- executeAgentLoop (lines 205-374): run the while loop, then apply the
post-loop fallback of lines 368-373 when the loop exhausted its turns (or
broke out) without reaching `completed` or `failed`. -/
def executeAgentLoop (env : OrchestratorEnv) (agent : AgentDefinition) (run : AgentRun) :
    List AgentStreamEvent × AgentRun :=
  let r := loopGo env agent (agent.behavior.maxTurns - run.currentTurn) run
  let run' := r.2.1
  if r.2.2 ∧ run'.status ≠ .completed ∧ run'.status ≠ .failed then
    (r.1, { run' with
      status := .completed
      output := some ((run'.messages.getLast?.map Message.content).getD "") })
  else
    (r.1, run')

/-- RunAgentRequest (schemas/agents.ts): the fields runAgent reads. -/
structure RunAgentRequest where
  input : String
  serverId : String
  model : Option String
  contextMessages : List Message

/-- Process-level state read by runAgent's preconditions, plus the run id
(`nanoid()`) and an injection point for a truly unexpected exception
escaping the try block of lines 166-187 (none of the embedded failure
modes throws out of the loop, so `bodyThrow = none` models every normal
execution; a `some` models the catch of lines 188-194). -/
structure RunAgentState where
  agents : String → Option AgentDefinition
  activeRunsCount : Nat
  maxConcurrentRuns : Nat
  serverExists : String → Bool
  runId : String
  bodyThrow : Option String

/-- JavaScript `request.model || agent.modelConfig.preferredModel || ""`
(line 136): the empty string is falsy. -/
def resolveModel (requestModel preferredModel : Option String) : String :=
  let fallback := match preferredModel with
    | some m => m
    | none => ""
  match requestModel with
  | some m => if m = "" then fallback else m
  | none => fallback

/-- runAgent (agent-orchestrator.ts lines 112-200): precondition checks
each yield a single error event and stop before a run exists; otherwise
the run is created, `status(executing)` is emitted, the loop runs inside
try/catch, and exactly one `done` event carrying the final run snapshot
terminates the sequence. -/
def runAgent (st : RunAgentState) (env : OrchestratorEnv) (agentId : String)
    (request : RunAgentRequest) : List AgentStreamEvent × Option AgentRun :=
  match st.agents agentId with
  | none => ([.error ("Agent not found: " ++ agentId)], none)
  | some agent =>
      if st.maxConcurrentRuns ≤ st.activeRunsCount then
        ([.error "Maximum concurrent agent runs reached"], none)
      else if st.serverExists request.serverId = false then
        ([.error ("Server not found: " ++ request.serverId)], none)
      else if resolveModel request.model agent.preferredModel = "" then
        ([.error "No model specified for agent run"], none)
      else
        let run : AgentRun :=
          { id := st.runId, agentId := agentId, status := .pending
            input := request.input, steps := []
            messages := Message.plain "system" agent.systemPrompt ::
              request.contextMessages ++ [Message.plain "user" request.input]
            currentTurn := 0, totalToolCalls := 0, output := none, error := none }
        match st.bodyThrow with
        | some msg =>
            let failedRun := { run with status := .failed, error := some msg }
            ([.status .executing, .error msg, .done failedRun], some failedRun)
        | none =>
            let run := { run with status := .executing }
            let r := executeAgentLoop env agent run
            (AgentStreamEvent.status .executing :: r.1 ++ [.done r.2], some r.2)

/-! ## Characterization of the tool executor -/

/-- The result the executor produces for one input call when no early
stop intervenes: the parse-failure result, or the raced execution of the
parsed call. -/
def finalToolResult (env : ExecEnv) (timeout : Nat) (tc : ToolCall) : ToolResult :=
  match parseToolCallArguments env.parse tc with
  | some pc => executeWithTimeout env pc timeout
  | none =>
      { toolCallId := tc.id, name := tc.name, result := .null
        error := some "Failed to parse tool call arguments"
        executionTimeMs := none }

/-- Writing a batch of results back at their original positions, as a
fold (the shape produced by lines 100-102 for each batch). -/
def setResults (env : ExecEnv) (timeout : Nat) (pending : List (Nat × ParsedToolCall))
    (results : List (Option ToolResult)) : List (Option ToolResult) :=
  pending.foldl (fun acc q => acc.set q.1 (some (executeWithTimeout env q.2 timeout))) results

theorem set_append_offset {α : Type} (a : List α) (b : List α) (n : Nat) (x : α) :
    (a ++ b).set (a.length + n) x = a ++ b.set n x := by
  induction a with
  | nil => simp
  | cons h t ih => simp [List.cons_append, List.length_cons, Nat.succ_add, List.set, ih]

theorem runBatches_cont_eq (env : ExecEnv) (timeout mc : Nat) (hm : 0 < mc) :
    ∀ (fuel : Nat) (pending : List (Nat × ParsedToolCall)) (results : List (Option ToolResult)),
      pending.length ≤ fuel →
      runBatches env timeout mc true fuel pending results = setResults env timeout pending results := by
  intro fuel
  induction fuel with
  | zero =>
      intro pending results hl
      have : pending = [] := List.eq_nil_of_length_eq_zero (Nat.le_zero.mp hl)
      subst this
      rfl
  | succ n ih =>
      intro pending results hl
      match pending with
      | [] => rfl
      | p :: ps =>
          rw [runBatches]
          have hcond : ¬ (true = false ∧
              (((p :: ps).take mc).map
                (fun q => (q.1, executeWithTimeout env q.2 timeout))).any
                  (fun q => q.2.error.isSome) = true) := by
            intro h
            exact Bool.true_eq_false.mp h.1
          rw [if_neg hcond]
          have hdrop : ((p :: ps).drop mc).length ≤ n := by
            rw [List.length_drop]
            simp only [List.length_cons] at hl ⊢
            omega
          rw [ih ((p :: ps).drop mc) _ hdrop]
          show setResults env timeout ((p :: ps).drop mc)
              ((((p :: ps).take mc).map (fun q => (q.1, executeWithTimeout env q.2 timeout))).foldl
                (fun acc q => acc.set q.1 (some q.2)) results)
            = setResults env timeout (p :: ps) results
          rw [List.foldl_map]
          show setResults env timeout ((p :: ps).drop mc)
              (setResults env timeout ((p :: ps).take mc) results)
            = setResults env timeout (p :: ps) results
          unfold setResults
          rw [← List.foldl_append, List.take_append_drop]

theorem setResults_enumFrom (env : ExecEnv) (timeout : Nat) :
    ∀ (l : List ToolCall) (pre : List (Option ToolResult)),
      setResults env timeout
        ((List.enumFrom pre.length l).filterMap
          (fun p => (parseToolCallArguments env.parse p.2).map (fun pc => (p.1, pc))))
        (pre ++ initialResults env l)
      = pre ++ l.map (fun tc => some (finalToolResult env timeout tc)) := by
  intro l
  induction l with
  | nil => intro pre; simp [initialResults, setResults]
  | cons tc rest ih =>
      intro pre
      rw [List.enumFrom_cons]
      cases hp : parseToolCallArguments env.parse tc with
      | none =>
          rw [List.filterMap_cons]
          simp only [hp, Option.map_none']
          have hinit : initialResults env (tc :: rest)
              = some (finalToolResult env timeout tc) :: initialResults env rest := by
            simp [initialResults, finalToolResult, hp]
          rw [hinit]
          have hassoc : pre ++ some (finalToolResult env timeout tc) :: initialResults env rest
              = (pre ++ [some (finalToolResult env timeout tc)]) ++ initialResults env rest := by
            simp
          rw [hassoc]
          have hlen : pre.length + 1 = (pre ++ [some (finalToolResult env timeout tc)]).length := by
            simp
          rw [hlen, ih (pre ++ [some (finalToolResult env timeout tc)])]
          simp
      | some pc =>
          rw [List.filterMap_cons]
          simp only [hp, Option.map_some']
          have hinit : initialResults env (tc :: rest) = none :: initialResults env rest := by
            simp [initialResults, hp]
          rw [hinit]
          show setResults env timeout ((pre.length, pc) :: _) _ = _
          unfold setResults
          rw [List.foldl_cons]
          have hset : (pre ++ none :: initialResults env rest).set pre.length
                (some (executeWithTimeout env pc timeout))
              = (pre ++ [some (executeWithTimeout env pc timeout)]) ++ initialResults env rest := by
            have h0 := set_append_offset pre (none :: initialResults env rest) 0
              (some (executeWithTimeout env pc timeout))
            simp only [Nat.add_zero, List.set] at h0
            rw [h0]
            simp
          rw [hset]
          have hlen : pre.length + 1 = (pre ++ [some (executeWithTimeout env pc timeout)]).length := by
            simp
          rw [hlen]
          have := ih (pre ++ [some (executeWithTimeout env pc timeout)])
          unfold setResults at this
          rw [this]
          have hfin : finalToolResult env timeout tc = executeWithTimeout env pc timeout := by
            simp [finalToolResult, hp]
          simp [hfin]

/-- With `continueOnError` enabled (the default) the executor returns,
for every input call at its original position, exactly that call's
result. -/
theorem executeToolCalls_cont_eq (env : ExecEnv) (toolCalls : List ToolCall)
    (opts : ExecutionOptions) (hc : opts.continueOnError = true) (hm : 0 < opts.maxConcurrent) :
    executeToolCalls env toolCalls opts
      = toolCalls.map (fun tc => some (finalToolResult env opts.timeout tc)) := by
  unfold executeToolCalls
  rw [hc, runBatches_cont_eq env opts.timeout opts.maxConcurrent hm _ _ _ (Nat.le_refl _)]
  have h0 : validCalls env toolCalls
      = (List.enumFrom ([] : List (Option ToolResult)).length toolCalls).filterMap
          (fun p => (parseToolCallArguments env.parse p.2).map (fun pc => (p.1, pc))) := rfl
  rw [h0]
  have := setResults_enumFrom env opts.timeout toolCalls []
  simpa using this

theorem parseToolCallArguments_ids (parse : JsonParse) (tc : ToolCall) (pc : ParsedToolCall)
    (h : parseToolCallArguments parse tc = some pc) : pc.id = tc.id ∧ pc.name = tc.name := by
  unfold parseToolCallArguments at h
  cases hp : parse tc.arguments with
  | ok v => rw [hp] at h; cases h; exact ⟨rfl, rfl⟩
  | error e => rw [hp] at h; cases h

theorem toolRegistryExecute_ids (reg : ToolRegistry) (elapsed : Nat) (call : ParsedToolCall) :
    (ToolRegistry.execute reg elapsed call).toolCallId = call.id
      ∧ (ToolRegistry.execute reg elapsed call).name = call.name := by
  unfold ToolRegistry.execute
  cases reg call.name with
  | none => exact ⟨rfl, rfl⟩
  | some tool =>
      by_cases he : tool.enabled = false
      · simp [he]
      · simp only [if_neg he]
        cases tool.handler call.arguments with
        | ok v => exact ⟨rfl, rfl⟩
        | error msg => exact ⟨rfl, rfl⟩

theorem executeWithTimeout_ids (env : ExecEnv) (call : ParsedToolCall) (timeout : Nat) :
    (executeWithTimeout env call timeout).toolCallId = call.id
      ∧ (executeWithTimeout env call timeout).name = call.name := by
  unfold executeWithTimeout
  by_cases h : timeout < env.duration call
  · simp [h]
  · simp only [if_neg h]
    exact toolRegistryExecute_ids env.registry (env.duration call) call

theorem finalToolResult_ids (env : ExecEnv) (timeout : Nat) (tc : ToolCall) :
    (finalToolResult env timeout tc).toolCallId = tc.id
      ∧ (finalToolResult env timeout tc).name = tc.name := by
  unfold finalToolResult
  cases hp : parseToolCallArguments env.parse tc with
  | none => exact ⟨rfl, rfl⟩
  | some pc =>
      have hids := parseToolCallArguments_ids env.parse tc pc hp
      have hew := executeWithTimeout_ids env pc timeout
      exact ⟨hew.1.trans hids.1, hew.2.trans hids.2⟩

theorem stringAppendAssoc (a b c : String) : (a ++ b) ++ c = a ++ (b ++ c) := by
  cases a with
  | mk la =>
      cases b with
      | mk lb =>
          cases c with
          | mk lc =>
              show String.mk ((la ++ lb) ++ lc) = String.mk (la ++ (lb ++ lc))
              rw [List.append_assoc]

/-! ## Claims about the tool executor -/

/-- Claim C10: with `continueOnError = true` (the default), `executeToolCalls`
returns an array of exactly the input's length in which every position i
holds a defined ToolResult whose `toolCallId` equals the i-th input
call's id and whose `name` equals that call's function name — no
position is left undefined, whether the call parsed, errored, or timed
out. -/
theorem executeToolCalls_defined_positions (env : ExecEnv) (toolCalls : List ToolCall)
    (opts : ExecutionOptions) (hc : opts.continueOnError = true) (hm : 0 < opts.maxConcurrent) :
    (executeToolCalls env toolCalls opts).length = toolCalls.length
    ∧ ∀ i, i < toolCalls.length → ∀ tc, toolCalls[i]? = some tc →
        ∃ r : ToolResult, (executeToolCalls env toolCalls opts)[i]? = some (some r)
          ∧ r.toolCallId = tc.id ∧ r.name = tc.name := by
  rw [executeToolCalls_cont_eq env toolCalls opts hc hm]
  constructor
  · exact List.length_map _ _
  · intro i _hi tc htc
    refine ⟨finalToolResult env opts.timeout tc, ?_,
      (finalToolResult_ids env opts.timeout tc).1, (finalToolResult_ids env opts.timeout tc).2⟩
    rw [List.getElem?_map, htc]
    rfl

/-- Concrete instance of the C10 theorem: a two-call batch (the second
call's name is unregistered) still yields a defined result at position 1
with that call's id and name. -/
theorem executeToolCalls_defined_positions_witness :
    ∃ r : ToolResult,
      (executeToolCalls
          { registry := fun _ => none
            parse := fun s => if s = "\x7b\x7d" then .ok (.obj .nil) else .error "Unexpected token"
            duration := fun _ => 5 }
          [{ id := "w1", name := "calc", arguments := "\x7b\x7d" },
           { id := "w2", name := "nope", arguments := "not json" }]
          defaultExecutionOptions)[1]?
        = some (some r)
      ∧ r.toolCallId = "w2" ∧ r.name = "nope" :=
  (executeToolCalls_defined_positions
      { registry := fun _ => none
        parse := fun s => if s = "\x7b\x7d" then .ok (.obj .nil) else .error "Unexpected token"
        duration := fun _ => 5 }
      [{ id := "w1", name := "calc", arguments := "\x7b\x7d" },
       { id := "w2", name := "nope", arguments := "not json" }]
      defaultExecutionOptions rfl (by decide)).2 1 (by decide)
    { id := "w2", name := "nope", arguments := "not json" } rfl

/-- Claim C6: `executeToolCalls` writes each call's result back at the
original call's position, preserving input order regardless of batching,
and a parsed call whose execution exceeds the per-call `timeout` yields
at its position an error result whose error text contains "timed out". -/
theorem executeToolCalls_order_and_timeout (env : ExecEnv) (toolCalls : List ToolCall)
    (opts : ExecutionOptions) (hc : opts.continueOnError = true) (hm : 0 < opts.maxConcurrent) :
    (executeToolCalls env toolCalls opts).length = toolCalls.length
    ∧ ∀ i, i < toolCalls.length → ∀ tc, toolCalls[i]? = some tc →
        (executeToolCalls env toolCalls opts)[i]?
            = some (some (finalToolResult env opts.timeout tc))
        ∧ ∀ pc, parseToolCallArguments env.parse tc = some pc →
            opts.timeout < env.duration pc →
            ∃ a b, (finalToolResult env opts.timeout tc).error = some (a ++ "timed out" ++ b) := by
  rw [executeToolCalls_cont_eq env toolCalls opts hc hm]
  refine ⟨List.length_map _ _, ?_⟩
  intro i _hi tc htc
  constructor
  · rw [List.getElem?_map, htc]
    rfl
  · intro pc hp hd
    refine ⟨"Tool \"" ++ pc.name ++ "\" execution ",
      " after " ++ toString opts.timeout ++ "ms", ?_⟩
    have h1 : (finalToolResult env opts.timeout tc).error
        = some ("Tool \"" ++ pc.name ++ "\" execution timed out after "
            ++ toString opts.timeout ++ "ms") := by
      simp only [finalToolResult, hp, executeWithTimeout, if_pos hd]
    rw [h1]
    have hlit : ("\" execution timed out after " : String)
        = "\" execution " ++ "timed out" ++ " after " := rfl
    rw [hlit]
    simp only [stringAppendAssoc]

/-- Concrete instance of the C6 theorem (scenario 5): 3 calls with
`maxConcurrent = 2`, the 2nd exceeding the 30000ms timeout — the results
array has length 3 and the entry at position 1 carries a "timed out"
error. -/
theorem executeToolCalls_order_and_timeout_witness :
    (executeToolCalls
        { registry := fun _ => some { handler := fun _ => .ok (.str "v"), enabled := true }
          parse := fun s => if s = "\x7b\x7d" then .ok (.obj .nil) else .error "Unexpected token"
          duration := fun pc => if pc.id = "2" then 40000 else 5 }
        [{ id := "1", name := "a", arguments := "\x7b\x7d" },
         { id := "2", name := "b", arguments := "\x7b\x7d" },
         { id := "3", name := "c", arguments := "\x7b\x7d" }]
        { timeout := 30000, maxConcurrent := 2, continueOnError := true }).length = 3
    ∧ ∃ a b,
        (finalToolResult
            { registry := fun _ => some { handler := fun _ => .ok (.str "v"), enabled := true }
              parse := fun s => if s = "\x7b\x7d" then .ok (.obj .nil) else .error "Unexpected token"
              duration := fun pc => if pc.id = "2" then 40000 else 5 }
            30000
            { id := "2", name := "b", arguments := "\x7b\x7d" }).error
          = some (a ++ "timed out" ++ b) := by
  have h := executeToolCalls_order_and_timeout
    { registry := fun _ => some { handler := fun _ => .ok (.str "v"), enabled := true }
      parse := fun s => if s = "\x7b\x7d" then .ok (.obj .nil) else .error "Unexpected token"
      duration := fun pc => if pc.id = "2" then 40000 else 5 }
    [{ id := "1", name := "a", arguments := "\x7b\x7d" },
     { id := "2", name := "b", arguments := "\x7b\x7d" },
     { id := "3", name := "c", arguments := "\x7b\x7d" }]
    { timeout := 30000, maxConcurrent := 2, continueOnError := true } rfl (by decide)
  refine ⟨h.1, ?_⟩
  exact (h.2 1 (by decide) { id := "2", name := "b", arguments := "\x7b\x7d" } rfl).2
    { id := "2", name := "b", arguments := .obj .nil } (by rfl) (by decide)

/-! ## Claims about the tool registry and schema helpers -/

/-- Claim C8: `toolRegistry.execute` is a total function into ToolResult
values (no failure mode escapes as an exception): an unregistered name
yields the structured not-found error with a null result, a disabled tool
the structured disabled error, a thrown handler error becomes the error
field of the result, and `executionTimeMs` is recorded in every case. -/
theorem toolRegistry_execute_structured (reg : ToolRegistry) (elapsed : Nat)
    (call : ParsedToolCall) :
    (reg call.name = none →
        ToolRegistry.execute reg elapsed call
          = { toolCallId := call.id, name := call.name, result := .null
              error := some ("Tool \"" ++ call.name ++ "\" not found")
              executionTimeMs := some elapsed })
    ∧ (∀ tool, reg call.name = some tool → tool.enabled = false →
        ToolRegistry.execute reg elapsed call
          = { toolCallId := call.id, name := call.name, result := .null
              error := some ("Tool \"" ++ call.name ++ "\" is disabled")
              executionTimeMs := some elapsed })
    ∧ (∀ tool msg, reg call.name = some tool → tool.enabled = true →
        tool.handler call.arguments = .error msg →
        ToolRegistry.execute reg elapsed call
          = { toolCallId := call.id, name := call.name, result := .null
              error := some msg, executionTimeMs := some elapsed })
    ∧ (ToolRegistry.execute reg elapsed call).executionTimeMs = some elapsed := by
  refine ⟨?_, ?_, ?_, ?_⟩
  · intro h
    simp [ToolRegistry.execute, h]
  · intro tool h he
    simp [ToolRegistry.execute, h, he]
  · intro tool msg h he hh
    simp [ToolRegistry.execute, h, he, hh]
  · unfold ToolRegistry.execute
    cases reg call.name with
    | none => rfl
    | some tool =>
        by_cases he : tool.enabled = false
        · simp [he]
        · simp only [if_neg he]
          cases tool.handler call.arguments with
          | ok v => rfl
          | error msg => rfl

/-- Concrete instance of the C8 theorem (scenario 2): executing
`{id: "c2", name: "nonexistent", arguments: {}}` against an empty
registry yields the structured not-found error and a null result. -/
theorem toolRegistry_execute_structured_witness :
    (ToolRegistry.execute (fun _ => none) 0
        { id := "c2", name := "nonexistent", arguments := .obj .nil }).error
      = some "Tool \"nonexistent\" not found"
    ∧ (ToolRegistry.execute (fun _ => none) 0
        { id := "c2", name := "nonexistent", arguments := .obj .nil }).result = .null := by
  have h := (toolRegistry_execute_structured (fun _ => none) 0
    { id := "c2", name := "nonexistent", arguments := .obj .nil }).1 rfl
  exact ⟨by rw [h]; rfl, by rw [h]⟩

/-- Claim C9 counterexample: for a ToolResult whose error field is present
but holds the empty string, `createToolResultMessage` writes
`JSON.stringify(result.result)` into the content — not the JSON error
object the claim promises whenever `result.error` is present
(`if (result.error)` is JavaScript truthiness, false for the empty
string). -/
theorem createToolResultMessage_empty_error_cex :
    (createToolResultMessage
        { toolCallId := "t", name := "n", result := .null
          error := some "", executionTimeMs := none }).content
      ≠ Json.stringify (.obj (.cons "error" (.str "") .nil)) := by
  decide

/-- Claim C9 (amended): `createToolResultMessage(result)` produces a
message with role "tool", `tool_call_id = result.toolCallId`,
`name = result.name`, and content `JSON.stringify(result.result)` when
`result.error` is absent or empty, and `JSON.stringify({error})` (error
taking precedence) when `result.error` is present and non-empty. -/
theorem createToolResultMessage_roundtrip (result : ToolResult) :
    (createToolResultMessage result).role = "tool"
    ∧ (createToolResultMessage result).tool_call_id = result.toolCallId
    ∧ (createToolResultMessage result).name = some result.name
    ∧ ((result.error = none ∨ result.error = some "") →
        (createToolResultMessage result).content = Json.stringify result.result)
    ∧ (∀ e, result.error = some e → e ≠ "" →
        (createToolResultMessage result).content
          = Json.stringify (.obj (.cons "error" (.str e) .nil))) := by
  refine ⟨rfl, rfl, rfl, ?_, ?_⟩
  · intro h
    cases h with
    | inl h => simp [createToolResultMessage, formatToolResultContent, h]
    | inr h => simp [createToolResultMessage, formatToolResultContent, h]
  · intro e he hne
    simp [createToolResultMessage, formatToolResultContent, he, hne]

/-- Concrete instance of the C9 theorem: a non-empty error string wins
over the result value. -/
theorem createToolResultMessage_roundtrip_witness :
    (createToolResultMessage
        { toolCallId := "t1", name := "n1", result := .str "v"
          error := some "boom", executionTimeMs := none }).content
      = Json.stringify (.obj (.cons "error" (.str "boom") .nil)) :=
  (createToolResultMessage_roundtrip
      { toolCallId := "t1", name := "n1", result := .str "v"
        error := some "boom", executionTimeMs := none }).2.2.2.2 "boom" rfl (by decide)

/-! ## Claims about the chat context manager -/

theorem mem_collectNewest_sub (minMessages : Nat) :
    ∀ (l : List Message) (a : Int) (k : Nat) (x : Message),
      x ∈ collectNewest minMessages a k l → x ∈ l := by
  intro l
  induction l with
  | nil =>
      intro a k x h
      simp only [collectNewest] at h
      exact absurd h (List.not_mem_nil x)
  | cons m rest ih =>
      intro a k x h
      simp only [collectNewest] at h
      by_cases hc : 0 ≤ a - (estimateTokenCount m.content + 4 : Int) ∨ k < minMessages
      · rw [if_pos hc] at h
        rcases List.mem_cons.mp h with h1 | h2
        · exact h1 ▸ List.mem_cons_self m rest
        · exact List.mem_cons_of_mem m (ih _ _ x h2)
      · rw [if_neg hc] at h
        exact absurd h (List.not_mem_nil x)

theorem mem_collectNewest_mono (minMessages : Nat) :
    ∀ (l : List Message) (a₁ a₂ : Int) (k : Nat) (x : Message), a₁ ≤ a₂ →
      x ∈ collectNewest minMessages a₁ k l → x ∈ collectNewest minMessages a₂ k l := by
  intro l
  induction l with
  | nil =>
      intro a₁ a₂ k x _ h
      simpa only [collectNewest] using h
  | cons m rest ih =>
      intro a₁ a₂ k x hle h
      simp only [collectNewest] at h ⊢
      by_cases hc1 : 0 ≤ a₁ - (estimateTokenCount m.content + 4 : Int) ∨ k < minMessages
      · have hc2 : 0 ≤ a₂ - (estimateTokenCount m.content + 4 : Int) ∨ k < minMessages := by
          rcases hc1 with h1 | h1
          · left; omega
          · right; exact h1
        rw [if_pos hc1] at h
        rw [if_pos hc2]
        rcases List.mem_cons.mp h with h1 | h2
        · exact h1 ▸ List.mem_cons_self m _
        · exact List.mem_cons_of_mem m (ih _ _ (k + 1) x (by omega) h2)
      · rw [if_neg hc1] at h
        exact absurd h (List.not_mem_nil x)

theorem mem_truncateOldest (sys : Option Message) (msgs : List Message) (maxT : Int)
    (minM : Nat) (x : Message) (h : x ∈ truncateOldest sys msgs maxT minM) :
    (∃ m, sys = some m ∧ x = m) ∨ x ∈ msgs := by
  unfold truncateOldest at h
  cases sys with
  | none =>
      right
      rw [List.mem_reverse] at h
      exact List.mem_reverse.mp (mem_collectNewest_sub _ _ _ _ x h)
  | some m =>
      rcases List.mem_cons.mp h with h1 | h2
      · exact Or.inl ⟨m, rfl, h1⟩
      · right
        rw [List.mem_reverse] at h2
        exact List.mem_reverse.mp (mem_collectNewest_sub _ _ _ _ x h2)

theorem mem_truncateOldest_mono (sys : Option Message) (msgs : List Message)
    (max1 max2 : Int) (minM : Nat) (x : Message) (hle : max1 ≤ max2)
    (h : x ∈ truncateOldest sys msgs max1 minM) :
    x ∈ truncateOldest sys msgs max2 minM := by
  unfold truncateOldest at h ⊢
  cases sys with
  | none =>
      rw [List.mem_reverse] at h ⊢
      exact mem_collectNewest_mono _ _ _ _ _ x (by omega) h
  | some m =>
      rcases List.mem_cons.mp h with h1 | h2
      · exact h1 ▸ List.mem_cons_self _ _
      · refine List.mem_cons_of_mem _ ?_
        rw [List.mem_reverse] at h2 ⊢
        exact mem_collectNewest_mono _ _ _ _ _ x (by omega) h2

theorem splitSystem_fst_role (messages : List Message) (ks : Bool) (m : Message)
    (h : (splitSystem messages ks).1 = some m) : m.role = "system" := by
  cases messages with
  | nil => simp [splitSystem] at h
  | cons m0 rest =>
      by_cases hc : (ks && decide (m0.role = "system")) = true
      · simp only [splitSystem, if_pos hc] at h
        have h' : m0 = m := by simpa using h
        simp only [Bool.and_eq_true, decide_eq_true_eq] at hc
        rw [← h']
        exact hc.2
      · simp only [splitSystem, if_neg hc] at h
        simp at h

theorem splitSystem_snd_subset (messages : List Message) (ks : Bool) (x : Message)
    (h : x ∈ (splitSystem messages ks).2) : x ∈ messages := by
  cases messages with
  | nil => simp [splitSystem] at h
  | cons m0 rest =>
      by_cases hc : (ks && decide (m0.role = "system")) = true
      · simp only [splitSystem, if_pos hc] at h
        exact List.mem_cons_of_mem m0 h
      · simpa only [splitSystem, if_neg hc] using h

/-- The non-system messages of a message list (the messages the claim
about window monotonicity quantifies over). -/
def retainedNonSystem (l : List Message) : List Message :=
  l.filter (fun m => decide (m.role ≠ "system"))

/-- The token budget needed to hold the (kept) system message plus the
newest `minMessages` non-system messages, computed with the same
estimator as the window: the claim's "large enough" threshold. -/
def floorBudget (messages : List Message) (minMessages : Nat) (keepSys : Bool) : Int :=
  let sp := splitSystem messages keepSys
  let sysTok : Int := match sp.1 with
    | some m => (estimateTokenCount m.content + 4 : Int)
    | none => 0
  sysTok + ((sp.2.reverse.take minMessages).foldl
    (fun a m => a + (estimateTokenCount m.content + 4 : Int)) 0)

/-- Claim C7: for any message list, `minMessages`, and budgets
`max1 ≤ max2` each large enough to hold the system message plus the
newest `minMessages` non-system messages, the non-system messages
retained by `applyContextWindow` under `truncate-oldest` with budget
`max1` are a subset of those retained with budget `max2`. -/
theorem applyContextWindow_monotone (messages : List Message) (minMessages : Nat)
    (keepSys : Bool) (max1 max2 : Int)
    (_hb1 : floorBudget messages minMessages keepSys ≤ max1)
    (_hb2 : floorBudget messages minMessages keepSys ≤ max2)
    (hle : max1 ≤ max2) :
    retainedNonSystem (applyContextWindow messages
        { maxTokens := max1, strategy := .truncateOldest
          minMessages := minMessages, keepSystemMessage := keepSys })
      ⊆ retainedNonSystem (applyContextWindow messages
        { maxTokens := max2, strategy := .truncateOldest
          minMessages := minMessages, keepSystemMessage := keepSys }) := by
  intro x hx
  unfold applyContextWindow at hx ⊢
  by_cases ht1 : (calculateConversationTokens messages : Int) ≤ max1
  · have ht2 : (calculateConversationTokens messages : Int) ≤ max2 := le_trans ht1 hle
    rw [if_pos ht1] at hx
    rw [if_pos ht2]
    exact hx
  · rw [if_neg ht1] at hx
    have hx' := List.mem_filter.mp hx
    have hrole : x.role ≠ "system" := of_decide_eq_true hx'.2
    by_cases ht2 : (calculateConversationTokens messages : Int) ≤ max2
    · rw [if_pos ht2]
      refine List.mem_filter.mpr ⟨?_, hx'.2⟩
      rcases mem_truncateOldest _ _ _ _ x hx'.1 with ⟨m, hm, hxm⟩ | hmem
      · exact absurd (hxm ▸ splitSystem_fst_role messages keepSys m hm) hrole
      · exact splitSystem_snd_subset messages keepSys x hmem
    · rw [if_neg ht2]
      exact List.mem_filter.mpr
        ⟨mem_truncateOldest_mono _ _ max1 max2 _ x hle hx'.1, hx'.2⟩

/-- Concrete instance of the C7 theorem: a four-message conversation over
budget, with two budgets 14 ≤ 20 both above the floor, retains a
monotone set of non-system messages. -/
theorem applyContextWindow_monotone_witness :
    retainedNonSystem (applyContextWindow
        [Message.plain "system" "ssssssss", Message.plain "user" "aaaaaaaaaaaaaaaa",
         Message.plain "assistant" "bbbbbbbbbbbbbbbb", Message.plain "user" "cccccccccccccccc"]
        { maxTokens := 14, strategy := .truncateOldest
          minMessages := 1, keepSystemMessage := true })
      ⊆ retainedNonSystem (applyContextWindow
        [Message.plain "system" "ssssssss", Message.plain "user" "aaaaaaaaaaaaaaaa",
         Message.plain "assistant" "bbbbbbbbbbbbbbbb", Message.plain "user" "cccccccccccccccc"]
        { maxTokens := 20, strategy := .truncateOldest
          minMessages := 1, keepSystemMessage := true }) :=
  applyContextWindow_monotone
    [Message.plain "system" "ssssssss", Message.plain "user" "aaaaaaaaaaaaaaaa",
     Message.plain "assistant" "bbbbbbbbbbbbbbbb", Message.plain "user" "cccccccccccccccc"]
    1 true 14 20 (by decide) (by decide) (by decide)

/-! ## Claims about the agent orchestrator -/

/-- A `JSON.parse` model that accepts the empty-object blob. -/
def okJsonParse : JsonParse := fun s =>
  if s = "\x7b\x7d" then .ok (.obj .nil) else .error "Unexpected token"

/-- The run state runAgent builds before entering the loop (status already
set to executing by the `status(executing)` event). -/
def initialRun : AgentRun :=
  { id := "run1", agentId := "agent1", status := .executing, input := "go"
    steps := [], messages := [Message.plain "system" "sys", Message.plain "user" "go"]
    currentTurn := 0, totalToolCalls := 0, output := none, error := none }

def callA : ToolCall := { id := "1", name := "a", arguments := "\x7b\x7d" }

def callB : ToolCall := { id := "2", name := "b", arguments := "\x7b\x7d" }

def AgentStreamEvent.isToolCallEvent : AgentStreamEvent → Bool
  | .tool_call _ => true
  | _ => false

/-- Environment for the C1 failing input: every turn's model response
carries two tool calls; tool execution succeeds. -/
def limitEnv : OrchestratorEnv :=
  { turnResponse := fun _ => .success [.tool_calls [callA, callB]]
    toolExec := fun pc =>
      { toolCallId := pc.id, name := pc.name, result := .str "ok"
        error := none, executionTimeMs := some 1 }
    parse := okJsonParse
    abortedAt := fun _ => false }

/-- Agent for the C1 failing input: at most one tool call per turn. -/
def limitAgent : AgentDefinition :=
  { id := "agent1", systemPrompt := "sys", tools := []
    behavior := { maxToolCallsPerTurn := 1, maxTurns := 1, autoContinue := true
                  stopOnError := false, requireConfirmation := false }
    preferredModel := some "m" }

/-- Claim C1 (evaluation of the code at the failing input): with
`maxToolCallsPerTurn = 1` and a turn whose assistant message carries two
tool calls, the loop emits a `tool_call` step and event and a
`tool_result` step for BOTH calls and executes both — the truncation of
lines 310-319 rewrites only the stored assistant message (to one call)
while `executeTools` at line 330 receives the original untruncated list,
contradicting the emitted "Limiting tool calls from 2 to 1" thinking
step. -/
theorem orchestrator_limit_not_enforced :
    ((executeAgentLoop limitEnv limitAgent initialRun).2.steps.filterMap
        (fun s => if s.type = StepType.tool_call then some s.toolName else none))
      = [some "a", some "b"]
    ∧ ((executeAgentLoop limitEnv limitAgent initialRun).2.steps.filter
        (fun s => decide (s.type = StepType.tool_result))).length = 2
    ∧ ((executeAgentLoop limitEnv limitAgent initialRun).1.filter
        AgentStreamEvent.isToolCallEvent).length = 2
    ∧ ((executeAgentLoop limitEnv limitAgent initialRun).2.messages.filterMap
        (fun m => if m.role = "assistant" then some ((m.tool_calls.getD []).length) else none))
      = [1]
    ∧ (executeAgentLoop limitEnv limitAgent initialRun).2.steps.countP
        (fun s => decide (s.content = "Limiting tool calls from 2 to 1")) = 1 :=
  ⟨rfl, rfl, rfl, rfl, rfl⟩

/-- Environment for the C2 failing input: turn 1 responds with one tool
call whose execution errors with "boom"; turn 2 responds with plain
content "hello". -/
def stopErrEnv : OrchestratorEnv :=
  { turnResponse := fun t =>
      if t = 1 then .success [.tool_calls [callA]] else .success [.content "hello"]
    toolExec := fun pc =>
      { toolCallId := pc.id, name := pc.name, result := .null
        error := some "boom", executionTimeMs := some 1 }
    parse := okJsonParse
    abortedAt := fun _ => false }

/-- Agent for the C2 failing input: `stopOnError = true`,
`autoContinue = true`, two turns allowed. -/
def stopErrAgent : AgentDefinition :=
  { id := "agent1", systemPrompt := "sys", tools := []
    behavior := { maxToolCallsPerTurn := 5, maxTurns := 2, autoContinue := true
                  stopOnError := true, requireConfirmation := false }
    preferredModel := some "m" }

/-- Claim C2 (evaluation of the code at the failing input): after the
first tool call of turn 1 errors with `stopOnError = true`, `executeTools`
records status failed and returns — but `executeAgentLoop` does not check
the status, and with `autoContinue = true` it runs turn 2, whose
tool-free response overwrites the status to completed.  The final run has
status completed (not failed), currentTurn 2 (not 1), the stale error
"boom", and output "hello". -/
theorem orchestrator_stopOnError_not_immediate :
    (executeAgentLoop stopErrEnv stopErrAgent initialRun).2.status = .completed
    ∧ (executeAgentLoop stopErrEnv stopErrAgent initialRun).2.currentTurn = 2
    ∧ (executeAgentLoop stopErrEnv stopErrAgent initialRun).2.error = some "boom"
    ∧ (executeAgentLoop stopErrEnv stopErrAgent initialRun).2.output = some "hello" :=
  ⟨rfl, rfl, rfl, rfl⟩

def AgentStreamEvent.isDone : AgentStreamEvent → Bool
  | .done _ => true
  | _ => false

/-- The number of tool calls carried by turn `t`'s assistant message
before any truncation: zero for a failed model call, otherwise the size
of the tool-call list buffered by the delta-consumption loop. -/
def preTruncCount (env : OrchestratorEnv) (t : Nat) : Nat :=
  match env.turnResponse t with
  | .failure _ => 0
  | .success deltas =>
      ((((processDeltas deltas "" none).2.2).bind Message.tool_calls).getD []).length

/-- Sum of `preTruncCount` over turns `a+1 .. b`. -/
def sumCountsRange (env : OrchestratorEnv) (a b : Nat) : Nat :=
  ((List.range' (a + 1) (b - a)).map (preTruncCount env)).sum

theorem sumCountsRange_self (env : OrchestratorEnv) (a : Nat) :
    sumCountsRange env a a = 0 := by
  simp [sumCountsRange]

theorem sumCountsRange_step (env : OrchestratorEnv) (a b : Nat) (h : a < b) :
    sumCountsRange env a b = preTruncCount env (a + 1) + sumCountsRange env (a + 1) b := by
  unfold sumCountsRange
  have hb : b - a = (b - (a + 1)) + 1 := by omega
  rw [hb, List.range'_succ, List.map_cons, List.sum_cons]

theorem executeTools_currentTurn (env : OrchestratorEnv) (agent : AgentDefinition) :
    ∀ (tcs : List ToolCall) (run : AgentRun),
      (executeTools env agent run tcs).2.1.currentTurn = run.currentTurn := by
  intro tcs
  induction tcs with
  | nil => intro run; rfl
  | cons tc rest ih =>
      intro run
      rw [executeTools]
      cases hp : env.parse (if tc.arguments = "" then "\x7b\x7d" else tc.arguments) with
      | error msg => rfl
      | ok args =>
          simp only
          split
          · rfl
          · exact ih _

theorem executeTools_totalToolCalls (env : OrchestratorEnv) (agent : AgentDefinition) :
    ∀ (tcs : List ToolCall) (run : AgentRun),
      (executeTools env agent run tcs).2.1.totalToolCalls = run.totalToolCalls := by
  intro tcs
  induction tcs with
  | nil => intro run; rfl
  | cons tc rest ih =>
      intro run
      rw [executeTools]
      cases hp : env.parse (if tc.arguments = "" then "\x7b\x7d" else tc.arguments) with
      | error msg => rfl
      | ok args =>
          simp only
          split
          · rfl
          · exact ih _

theorem executeTools_no_done (env : OrchestratorEnv) (agent : AgentDefinition) :
    ∀ (tcs : List ToolCall) (run : AgentRun) (e : AgentStreamEvent),
      e ∈ (executeTools env agent run tcs).1 → e.isDone = false := by
  intro tcs
  induction tcs with
  | nil =>
      intro run e he
      exact absurd he (List.not_mem_nil e)
  | cons tc rest ih =>
      intro run e he
      rw [executeTools] at he
      cases hp : env.parse (if tc.arguments = "" then "\x7b\x7d" else tc.arguments) with
      | error msg =>
          rw [hp] at he
          exact absurd he (List.not_mem_nil e)
      | ok args =>
          rw [hp] at he
          simp only at he
          revert he
          split
          · intro he
            rcases List.mem_cons.mp he with h | he
            · subst h; rfl
            rcases List.mem_cons.mp he with h | he
            · subst h; rfl
            rcases List.mem_cons.mp he with h | he
            · subst h; rfl
            rcases List.mem_cons.mp he with h | he
            · subst h; rfl
            exact absurd he (List.not_mem_nil e)
          · intro he
            rw [List.mem_append] at he
            rcases he with he | he
            · rcases List.mem_cons.mp he with h | he
              · subst h; rfl
              rcases List.mem_cons.mp he with h | he
              · subst h; rfl
              rcases List.mem_cons.mp he with h | he
              · subst h; rfl
              rcases List.mem_cons.mp he with h | he
              · subst h; rfl
              exact absurd he (List.not_mem_nil e)
            · exact ih _ e he

theorem processDeltas_no_done :
    ∀ (ds : List ModelDelta) (acc : String) (am : Option Message) (e : AgentStreamEvent),
      e ∈ (processDeltas ds acc am).1 → e.isDone = false := by
  intro ds
  induction ds with
  | nil =>
      intro acc am e he
      exact absurd he (List.not_mem_nil e)
  | cons d rest ih =>
      intro acc am e he
      cases d with
      | content s =>
          rw [processDeltas] at he
          rcases List.mem_cons.mp he with h | he
          · subst h; rfl
          · exact ih _ _ e he
      | tool_calls tcs =>
          rw [processDeltas] at he
          exact ih _ _ e he

theorem runTurn_currentTurn (env : OrchestratorEnv) (agent : AgentDefinition) (run : AgentRun) :
    (runTurn env agent run).2.1.currentTurn = run.currentTurn + 1 := by
  simp only [runTurn]
  cases htr : env.turnResponse (run.currentTurn + 1) with
  | failure msg => dsimp only; split <;> rfl
  | success deltas =>
      dsimp only
      split
      · split
        · split <;>
            (dsimp only
             rw [executeTools_currentTurn env agent]
             simp [apply_ite AgentRun.currentTurn])
        · split <;>
            (dsimp only
             rw [executeTools_currentTurn env agent]
             simp [apply_ite AgentRun.currentTurn])
        · split <;>
            (dsimp only
             rw [executeTools_currentTurn env agent]
             simp [apply_ite AgentRun.currentTurn])
      · rfl

theorem runTurn_totalToolCalls (env : OrchestratorEnv) (agent : AgentDefinition)
    (run : AgentRun) :
    (runTurn env agent run).2.1.totalToolCalls
      = run.totalToolCalls + preTruncCount env (run.currentTurn + 1) := by
  simp only [runTurn]
  cases htr : env.turnResponse (run.currentTurn + 1) with
  | failure msg =>
      dsimp only
      split <;> simp [preTruncCount, htr]
  | success deltas =>
      dsimp only
      have hpre : preTruncCount env (run.currentTurn + 1)
          = ((((processDeltas deltas "" none).2.2).bind Message.tool_calls).getD []).length := by
        simp [preTruncCount, htr]
      rw [hpre]
      split
      · next hh =>
          have hlen :
              ((((processDeltas deltas "" none).2.2.getD
                  (Message.plain "assistant" (processDeltas deltas "" none).2.1)).tool_calls).getD
                []).length
              = ((((processDeltas deltas "" none).2.2).bind Message.tool_calls).getD []).length := by
            cases hpd : (processDeltas deltas "" none).2.2 with
            | none => rfl
            | some m => rfl
          split
          · split <;>
              (dsimp only
               rw [executeTools_totalToolCalls env agent]
               simp [apply_ite AgentRun.totalToolCalls, hlen])
          · split <;>
              (dsimp only
               rw [executeTools_totalToolCalls env agent]
               simp [apply_ite AgentRun.totalToolCalls, hlen])
          · split <;>
              (dsimp only
               rw [executeTools_totalToolCalls env agent]
               simp [apply_ite AgentRun.totalToolCalls, hlen])
      · next hh =>
          have hz :
              ((((processDeltas deltas "" none).2.2).bind Message.tool_calls).getD []).length
                = 0 := by
            cases hpd : (processDeltas deltas "" none).2.2 with
            | none => rfl
            | some m =>
                rw [hpd] at hh
                unfold hasToolCalls at hh
                simp only [Option.getD_some] at hh
                cases hm : m.tool_calls with
                | none => simp [hm]
                | some tcs =>
                    rw [hm] at hh
                    simp only [decide_eq_true_eq] at hh
                    simp only [hm, Option.some_bind, Option.getD_some]
                    omega
          rw [hz]
          rfl

/-- Every event of a list is a non-`done` event. -/
def noDone (l : List AgentStreamEvent) : Prop :=
  ∀ e ∈ l, e.isDone = false

theorem noDone_nil : noDone [] :=
  fun e he => absurd he (List.not_mem_nil e)

theorem noDone_append {a b : List AgentStreamEvent} (ha : noDone a) (hb : noDone b) :
    noDone (a ++ b) := by
  intro e he
  rcases List.mem_append.mp he with h | h
  · exact ha e h
  · exact hb e h

theorem noDone_cons {x : AgentStreamEvent} {l : List AgentStreamEvent}
    (hx : x.isDone = false) (hl : noDone l) : noDone (x :: l) := by
  intro e he
  rcases List.mem_cons.mp he with h | h
  · rw [h]; exact hx
  · exact hl e h

theorem noDone_singleton {x : AgentStreamEvent} (hx : x.isDone = false) : noDone [x] :=
  noDone_cons hx noDone_nil

theorem noDone_ite {c : Prop} [Decidable c] {a b : List AgentStreamEvent}
    (ha : noDone a) (hb : noDone b) : noDone (if c then a else b) := by
  split
  · exact ha
  · exact hb

theorem processDeltas_noDone (ds : List ModelDelta) (acc : String) (am : Option Message) :
    noDone (processDeltas ds acc am).1 :=
  fun e he => processDeltas_no_done ds acc am e he

theorem executeTools_noDone (env : OrchestratorEnv) (agent : AgentDefinition)
    (run : AgentRun) (tcs : List ToolCall) : noDone (executeTools env agent run tcs).1 :=
  fun e he => executeTools_no_done env agent tcs run e he

theorem runTurn_noDone (env : OrchestratorEnv) (agent : AgentDefinition) (run : AgentRun) :
    noDone (runTurn env agent run).1 := by
  simp only [runTurn]
  cases htr : env.turnResponse (run.currentTurn + 1) with
  | failure msg =>
      dsimp only
      split <;> exact noDone_append (noDone_singleton rfl) (noDone_singleton rfl)
  | success deltas =>
      dsimp only
      split
      · split
        · split <;>
            exact noDone_append
              (noDone_append
                (noDone_append
                  (noDone_append (noDone_singleton rfl) (processDeltas_noDone _ _ _))
                  (noDone_ite (noDone_singleton rfl) noDone_nil))
                (noDone_ite (noDone_singleton rfl) noDone_nil))
              (executeTools_noDone _ _ _ _)
        · split <;>
            exact noDone_append
              (noDone_append
                (noDone_append
                  (noDone_append (noDone_singleton rfl) (processDeltas_noDone _ _ _))
                  (noDone_ite (noDone_singleton rfl) noDone_nil))
                (noDone_ite (noDone_singleton rfl) noDone_nil))
              (executeTools_noDone _ _ _ _)
        · split <;>
            exact noDone_append
              (noDone_append
                (noDone_append
                  (noDone_append
                    (noDone_append (noDone_singleton rfl) (processDeltas_noDone _ _ _))
                    (noDone_ite (noDone_singleton rfl) noDone_nil))
                  (noDone_ite (noDone_singleton rfl) noDone_nil))
                (executeTools_noDone _ _ _ _))
              (noDone_singleton rfl)
      · exact noDone_append
          (noDone_append (noDone_singleton rfl) (processDeltas_noDone _ _ _))
          (noDone_singleton rfl)

theorem loopGo_noDone (env : OrchestratorEnv) (agent : AgentDefinition) :
    ∀ (fuel : Nat) (run : AgentRun), noDone (loopGo env agent fuel run).1 := by
  intro fuel
  induction fuel with
  | zero => intro run; exact noDone_nil
  | succ n ih =>
      intro run
      rw [loopGo]
      by_cases ha : env.abortedAt run.currentTurn = true
      · rw [if_pos ha]
        exact noDone_singleton rfl
      · rw [if_neg ha]
        dsimp only
        rcases hrt : runTurn env agent run with ⟨evs, rest⟩
        rcases rest with ⟨run', oc⟩
        have hevs : noDone evs := by
          have h := runTurn_noDone env agent run
          rw [hrt] at h
          exact h
        cases oc with
        | ret => exact hevs
        | brk => exact hevs
        | cont => exact noDone_append hevs (ih run')

theorem loopGo_currentTurn_le (env : OrchestratorEnv) (agent : AgentDefinition) :
    ∀ (fuel : Nat) (run : AgentRun),
      (loopGo env agent fuel run).2.1.currentTurn ≤ run.currentTurn + fuel := by
  intro fuel
  induction fuel with
  | zero => intro run; exact Nat.le_refl _
  | succ n ih =>
      intro run
      rw [loopGo]
      by_cases ha : env.abortedAt run.currentTurn = true
      · rw [if_pos ha]
        exact Nat.le_add_right _ _
      · rw [if_neg ha]
        dsimp only
        rcases hrt : runTurn env agent run with ⟨evs, rest⟩
        rcases rest with ⟨run', oc⟩
        have hct : run'.currentTurn = run.currentTurn + 1 := by
          have h := runTurn_currentTurn env agent run
          rw [hrt] at h
          exact h
        cases oc with
        | ret => dsimp only; omega
        | brk => dsimp only; omega
        | cont =>
            dsimp only
            have h := ih run'
            omega

theorem loopGo_currentTurn_ge (env : OrchestratorEnv) (agent : AgentDefinition) :
    ∀ (fuel : Nat) (run : AgentRun),
      run.currentTurn ≤ (loopGo env agent fuel run).2.1.currentTurn := by
  intro fuel
  induction fuel with
  | zero => intro run; exact Nat.le_refl _
  | succ n ih =>
      intro run
      rw [loopGo]
      by_cases ha : env.abortedAt run.currentTurn = true
      · rw [if_pos ha]
      · rw [if_neg ha]
        dsimp only
        rcases hrt : runTurn env agent run with ⟨evs, rest⟩
        rcases rest with ⟨run', oc⟩
        have hct : run'.currentTurn = run.currentTurn + 1 := by
          have h := runTurn_currentTurn env agent run
          rw [hrt] at h
          exact h
        cases oc with
        | ret => dsimp only; omega
        | brk => dsimp only; omega
        | cont =>
            dsimp only
            have h := ih run'
            omega

theorem loopGo_totalToolCalls (env : OrchestratorEnv) (agent : AgentDefinition) :
    ∀ (fuel : Nat) (run : AgentRun),
      (loopGo env agent fuel run).2.1.totalToolCalls
        = run.totalToolCalls
          + sumCountsRange env run.currentTurn (loopGo env agent fuel run).2.1.currentTurn := by
  intro fuel
  induction fuel with
  | zero =>
      intro run
      rw [loopGo]
      dsimp only
      rw [sumCountsRange_self]
      omega
  | succ n ih =>
      intro run
      rw [loopGo]
      by_cases ha : env.abortedAt run.currentTurn = true
      · rw [if_pos ha]
        dsimp only
        rw [sumCountsRange_self]
        omega
      · rw [if_neg ha]
        dsimp only
        rcases hrt : runTurn env agent run with ⟨evs, rest⟩
        rcases rest with ⟨run', oc⟩
        have hct : run'.currentTurn = run.currentTurn + 1 := by
          have h := runTurn_currentTurn env agent run
          rw [hrt] at h
          exact h
        have htt : run'.totalToolCalls
            = run.totalToolCalls + preTruncCount env (run.currentTurn + 1) := by
          have h := runTurn_totalToolCalls env agent run
          rw [hrt] at h
          exact h
        cases oc with
        | ret =>
            dsimp only
            rw [htt, hct, sumCountsRange_step env _ _ (by omega), sumCountsRange_self]
            omega
        | brk =>
            dsimp only
            rw [htt, hct, sumCountsRange_step env _ _ (by omega), sumCountsRange_self]
            omega
        | cont =>
            dsimp only
            have h := ih run'
            have hge := loopGo_currentTurn_ge env agent n run'
            rw [h, htt, hct]
            rw [sumCountsRange_step env run.currentTurn _ (by omega)]
            omega

theorem executeAgentLoop_events (env : OrchestratorEnv) (agent : AgentDefinition)
    (run : AgentRun) :
    (executeAgentLoop env agent run).1
      = (loopGo env agent (agent.behavior.maxTurns - run.currentTurn) run).1 := by
  unfold executeAgentLoop
  dsimp only
  split <;> rfl

theorem executeAgentLoop_currentTurn (env : OrchestratorEnv) (agent : AgentDefinition)
    (run : AgentRun) :
    (executeAgentLoop env agent run).2.currentTurn
      = (loopGo env agent (agent.behavior.maxTurns - run.currentTurn) run).2.1.currentTurn := by
  unfold executeAgentLoop
  dsimp only
  split <;> rfl

theorem executeAgentLoop_totalToolCalls (env : OrchestratorEnv) (agent : AgentDefinition)
    (run : AgentRun) :
    (executeAgentLoop env agent run).2.totalToolCalls
      = (loopGo env agent (agent.behavior.maxTurns - run.currentTurn) run).2.1.totalToolCalls := by
  unfold executeAgentLoop
  dsimp only
  split <;> rfl

theorem filter_isDone_eq_nil {l : List AgentStreamEvent} (h : noDone l) :
    l.filter AgentStreamEvent.isDone = [] := by
  rw [List.filter_eq_nil_iff]
  intro a ha
  rw [h a ha]
  exact Bool.false_ne_true

theorem getLast?_cons_concat {α : Type} (x y : α) (l : List α) :
    (x :: (l ++ [y])).getLast? = some y := by
  rw [← List.cons_append, List.getLast?_concat]

theorem filter_isDone_cons_concat (x : AgentStreamEvent) (l : List AgentStreamEvent)
    (r : AgentRun) (hx : x.isDone = false) (hl : noDone l) :
    (x :: (l ++ [AgentStreamEvent.done r])).filter AgentStreamEvent.isDone
      = [AgentStreamEvent.done r] := by
  rw [← List.cons_append, List.filter_append]
  rw [show (x :: l).filter AgentStreamEvent.isDone = [] from
    filter_isDone_eq_nil (noDone_cons hx hl)]
  rfl

/-- The four run preconditions of runAgent (lines 116-141), in check
order: unknown agent, concurrent-run capacity, unknown server, no
resolvable model. -/
def runPreconditionFails (st : RunAgentState) (agentId : String)
    (request : RunAgentRequest) : Prop :=
  match st.agents agentId with
  | none => True
  | some agent =>
      st.maxConcurrentRuns ≤ st.activeRunsCount
      ∨ st.serverExists request.serverId = false
      ∨ resolveModel request.model agent.preferredModel = ""

/-- Claim C3: a failed precondition yields a single error event, no done
event, and no started run; otherwise the sequence ends with exactly one
done event carrying the final run snapshot, and when a non-precondition
failure (an exception escaping the loop into the catch of lines 188-194)
occurs, an error event is emitted and the status is failed before that
done event. -/
theorem runAgent_event_protocol (st : RunAgentState) (env : OrchestratorEnv)
    (agentId : String) (request : RunAgentRequest) :
    (runPreconditionFails st agentId request →
        ((∃ msg, (runAgent st env agentId request).1 = [.error msg])
          ∧ (runAgent st env agentId request).2 = none))
    ∧ (¬ runPreconditionFails st agentId request →
        ∃ r, (runAgent st env agentId request).2 = some r
          ∧ (runAgent st env agentId request).1.getLast? = some (.done r)
          ∧ (runAgent st env agentId request).1.filter AgentStreamEvent.isDone = [.done r]
          ∧ ∀ msg, st.bodyThrow = some msg →
              (runAgent st env agentId request).1
                  = [.status .executing, .error msg, .done r]
                ∧ r.status = .failed) := by
  unfold runAgent runPreconditionFails
  cases hag : st.agents agentId with
  | none =>
      exact ⟨fun _ => ⟨⟨"Agent not found: " ++ agentId, rfl⟩, rfl⟩,
        fun hn => absurd trivial hn⟩
  | some agent =>
      dsimp only
      by_cases hcap : st.maxConcurrentRuns ≤ st.activeRunsCount
      · rw [if_pos hcap]
        exact ⟨fun _ => ⟨⟨"Maximum concurrent agent runs reached", rfl⟩, rfl⟩,
          fun hn => absurd (Or.inl hcap) hn⟩
      · rw [if_neg hcap]
        by_cases hsrv : st.serverExists request.serverId = false
        · rw [if_pos hsrv]
          exact ⟨fun _ => ⟨⟨"Server not found: " ++ request.serverId, rfl⟩, rfl⟩,
            fun hn => absurd (Or.inr (Or.inl hsrv)) hn⟩
        · rw [if_neg hsrv]
          by_cases hmod : resolveModel request.model agent.preferredModel = ""
          · rw [if_pos hmod]
            exact ⟨fun _ => ⟨⟨"No model specified for agent run", rfl⟩, rfl⟩,
              fun hn => absurd (Or.inr (Or.inr hmod)) hn⟩
          · rw [if_neg hmod]
            refine ⟨fun hpre => ?_, fun _ => ?_⟩
            · rcases hpre with h | h | h
              exacts [absurd h hcap, absurd h hsrv, absurd h hmod]
            · cases hbt : st.bodyThrow with
              | some msg =>
                  refine ⟨_, rfl, rfl, rfl, ?_⟩
                  intro msg' hmsg'
                  cases Option.some.inj hmsg'
                  exact ⟨rfl, rfl⟩
              | none =>
                  dsimp only
                  refine ⟨_, rfl, ?_, ?_, ?_⟩
                  · exact getLast?_cons_concat _ _ _
                  · have hnd : noDone (executeAgentLoop env agent
                        { id := st.runId, agentId := agentId, status := .executing
                          input := request.input, steps := []
                          messages := Message.plain "system" agent.systemPrompt ::
                            request.contextMessages ++ [Message.plain "user" request.input]
                          currentTurn := 0, totalToolCalls := 0
                          output := none, error := none }).1 := by
                      rw [executeAgentLoop_events]
                      exact loopGo_noDone env agent _ _
                    exact filter_isDone_cons_concat _ _ _ rfl hnd
                  · intro msg hmsg
                    cases hmsg

/-- Claim C4: a run whose loop reaches the post-loop fallback (turn guard
exhausted, or break) without status completed or failed is forced to
completed, with output the content of the last message in history. -/
theorem executeAgentLoop_maxTurns_fallback (env : OrchestratorEnv)
    (agent : AgentDefinition) (run : AgentRun)
    (hfb : (loopGo env agent (agent.behavior.maxTurns - run.currentTurn) run).2.2 = true)
    (hnc : (loopGo env agent (agent.behavior.maxTurns - run.currentTurn) run).2.1.status
      ≠ .completed)
    (hnf : (loopGo env agent (agent.behavior.maxTurns - run.currentTurn) run).2.1.status
      ≠ .failed) :
    (executeAgentLoop env agent run).2.status = .completed
    ∧ (executeAgentLoop env agent run).2.output
        = some ((((loopGo env agent (agent.behavior.maxTurns - run.currentTurn)
            run).2.1.messages.getLast?).map Message.content).getD "") := by
  unfold executeAgentLoop
  dsimp only
  rw [if_pos ⟨hfb, hnc, hnf⟩]
  exact ⟨rfl, rfl⟩

/-- Environment for the C4 scenario-3 witness: the model answers every
turn with content "thinking" plus one tool call, whose execution returns
the value "42". -/
def c4Env : OrchestratorEnv :=
  { turnResponse := fun _ => .success [.content "thinking", .tool_calls [callA]]
    toolExec := fun pc =>
      { toolCallId := pc.id, name := pc.name, result := .str "42"
        error := none, executionTimeMs := some 1 }
    parse := okJsonParse
    abortedAt := fun _ => false }

/-- Agent for the C4 scenario-3 witness: one turn, autoContinue on. -/
def c4Agent : AgentDefinition :=
  { id := "agent1", systemPrompt := "sys", tools := []
    behavior := { maxToolCallsPerTurn := 5, maxTurns := 1, autoContinue := true
                  stopOnError := false, requireConfirmation := false }
    preferredModel := some "m" }

/-- Concrete instance of the C4 theorem (scenario 3): maxTurns = 1,
autoContinue = true, a tool-calling turn — the run ends completed at
turn 1 with output the tool-result message content "\"42\"", not the
assistant's pre-tool-call text "thinking". -/
theorem executeAgentLoop_maxTurns_fallback_witness :
    (executeAgentLoop c4Env c4Agent initialRun).2.status = .completed
    ∧ (executeAgentLoop c4Env c4Agent initialRun).2.output = some "\"42\""
    ∧ (executeAgentLoop c4Env c4Agent initialRun).2.currentTurn = 1 := by
  have h := executeAgentLoop_maxTurns_fallback c4Env c4Agent initialRun rfl
    (by decide) (by decide)
  exact ⟨h.1, h.2.trans (by rfl), rfl⟩

/-- Claim C5: for every started run, at termination the turn counter is
at most maxTurns, totalToolCalls equals the pre-truncation sum of the
turns' assistant tool-call counts, and the post-truncation sum (each
turn capped at maxToolCallsPerTurn) never exceeds it. -/
theorem runAgent_turn_and_toolcall_invariants (st : RunAgentState)
    (env : OrchestratorEnv) (agentId : String) (request : RunAgentRequest)
    (agent : AgentDefinition) (hagent : st.agents agentId = some agent)
    (r : AgentRun) (hr : (runAgent st env agentId request).2 = some r) :
    r.currentTurn ≤ agent.behavior.maxTurns
    ∧ r.totalToolCalls = sumCountsRange env 0 r.currentTurn
    ∧ ((List.range' 1 r.currentTurn).map
        (fun t => min (preTruncCount env t) agent.behavior.maxToolCallsPerTurn)).sum
      ≤ r.totalToolCalls := by
  unfold runAgent at hr
  rw [hagent] at hr
  dsimp only at hr
  by_cases hcap : st.maxConcurrentRuns ≤ st.activeRunsCount
  · rw [if_pos hcap] at hr
    cases hr
  · rw [if_neg hcap] at hr
    by_cases hsrv : st.serverExists request.serverId = false
    · rw [if_pos hsrv] at hr
      cases hr
    · rw [if_neg hsrv] at hr
      by_cases hmod : resolveModel request.model agent.preferredModel = ""
      · rw [if_pos hmod] at hr
        cases hr
      · rw [if_neg hmod] at hr
        cases hbt : st.bodyThrow with
        | some msg =>
            rw [hbt] at hr
            dsimp only at hr
            cases Option.some.inj hr
            refine ⟨Nat.zero_le _, ?_, ?_⟩
            · rw [sumCountsRange_self]
            · simp
        | none =>
            rw [hbt] at hr
            dsimp only at hr
            cases Option.some.inj hr
            rw [executeAgentLoop_currentTurn, executeAgentLoop_totalToolCalls]
            dsimp only
            have hle := loopGo_currentTurn_le env agent (agent.behavior.maxTurns - 0)
              { id := st.runId, agentId := agentId, status := .executing
                input := request.input, steps := []
                messages := Message.plain "system" agent.systemPrompt ::
                  request.contextMessages ++ [Message.plain "user" request.input]
                currentTurn := 0, totalToolCalls := 0, output := none, error := none }
            have htt := loopGo_totalToolCalls env agent (agent.behavior.maxTurns - 0)
              { id := st.runId, agentId := agentId, status := .executing
                input := request.input, steps := []
                messages := Message.plain "system" agent.systemPrompt ::
                  request.contextMessages ++ [Message.plain "user" request.input]
                currentTurn := 0, totalToolCalls := 0, output := none, error := none }
            dsimp only at hle htt
            have hsum : ∀ n : Nat, sumCountsRange env 0 n
                = ((List.range' 1 n).map (preTruncCount env)).sum := by
              intro n
              unfold sumCountsRange
              rw [Nat.sub_zero]
            have hmin : ∀ n : Nat,
                ((List.range' 1 n).map
                  (fun t => min (preTruncCount env t) agent.behavior.maxToolCallsPerTurn)).sum
                  ≤ ((List.range' 1 n).map (preTruncCount env)).sum :=
              fun n => List.sum_le_sum (fun t _ => Nat.min_le_left _ _)
            refine ⟨by omega, ?_, ?_⟩
            · rw [htt, hsum]
              exact Nat.zero_add _
            · rw [htt, hsum]
              have := hmin ((loopGo env agent (agent.behavior.maxTurns - 0)
                { id := st.runId, agentId := agentId, status := .executing
                  input := request.input, steps := []
                  messages := Message.plain "system" agent.systemPrompt ::
                    request.contextMessages ++ [Message.plain "user" request.input]
                  currentTurn := 0, totalToolCalls := 0, output := none
                  error := none }).2.1.currentTurn)
              omega

/-- Agent for the C3 witness: a single content-only turn. -/
def c3Agent : AgentDefinition :=
  { id := "ag", systemPrompt := "sys", tools := []
    behavior := { maxToolCallsPerTurn := 5, maxTurns := 1, autoContinue := false
                  stopOnError := false, requireConfirmation := false }
    preferredModel := some "m" }

/-- Environment for the C3 witness. -/
def c3Env : OrchestratorEnv :=
  { turnResponse := fun _ => .success [.content "hi"]
    toolExec := fun pc =>
      { toolCallId := pc.id, name := pc.name, result := .null
        error := none, executionTimeMs := some 1 }
    parse := okJsonParse
    abortedAt := fun _ => false }

/-- Process state for the C3 witness: one registered agent, one known
server, capacity available, no unexpected exception. -/
def c3State : RunAgentState :=
  { agents := fun i => if i = "ag" then some c3Agent else none
    activeRunsCount := 0, maxConcurrentRuns := 5
    serverExists := fun s => decide (s = "srv")
    runId := "r1", bodyThrow := none }

def c3Request : RunAgentRequest :=
  { input := "go", serverId := "srv", model := none, contextMessages := [] }

/-- Concrete instance of the C3 theorem: with all preconditions passing,
the event sequence ends in exactly one done event carrying the final
snapshot. -/
theorem runAgent_event_protocol_witness :
    ∃ r, (runAgent c3State c3Env "ag" c3Request).2 = some r
      ∧ (runAgent c3State c3Env "ag" c3Request).1.getLast? = some (.done r)
      ∧ (runAgent c3State c3Env "ag" c3Request).1.filter AgentStreamEvent.isDone
          = [.done r] := by
  have hn : ¬ runPreconditionFails c3State "ag" c3Request := by
    intro hpre
    have hpre' : c3State.maxConcurrentRuns ≤ c3State.activeRunsCount
        ∨ c3State.serverExists c3Request.serverId = false
        ∨ resolveModel c3Request.model c3Agent.preferredModel = "" := hpre
    rcases hpre' with h | h | h
    · exact absurd h (by decide)
    · exact absurd h (by decide)
    · exact absurd h (by decide)
  obtain ⟨r, h1, h2, h3, _⟩ := (runAgent_event_protocol c3State c3Env "ag" c3Request).2 hn
  exact ⟨r, h1, h2, h3⟩

/-- Process state for the C5 witness, running the truncation agent of C1
(two tool calls in a one-call-per-turn budget). -/
def c5State : RunAgentState :=
  { agents := fun i => if i = "ag" then some limitAgent else none
    activeRunsCount := 0, maxConcurrentRuns := 5
    serverExists := fun s => decide (s = "srv")
    runId := "r1", bodyThrow := none }

def c5Request : RunAgentRequest :=
  { input := "go", serverId := "srv", model := none, contextMessages := [] }

/-- Concrete instance of the C5 theorem: the truncating run stays within
maxTurns and counts both (pre-truncation) tool calls, while the
post-truncation sum (1) is strictly below totalToolCalls (2). -/
theorem runAgent_turn_and_toolcall_invariants_witness :
    ∃ r, (runAgent c5State limitEnv "ag" c5Request).2 = some r
      ∧ r.currentTurn ≤ limitAgent.behavior.maxTurns
      ∧ r.totalToolCalls = sumCountsRange limitEnv 0 r.currentTurn
      ∧ ((List.range' 1 r.currentTurn).map
          (fun t => min (preTruncCount limitEnv t) limitAgent.behavior.maxToolCallsPerTurn)).sum
        ≤ r.totalToolCalls := by
  obtain ⟨r, hr⟩ : ∃ r, (runAgent c5State limitEnv "ag" c5Request).2 = some r := ⟨_, rfl⟩
  have h := runAgent_turn_and_toolcall_invariants c5State limitEnv "ag" c5Request
    limitAgent (by rfl) r hr
  exact ⟨r, hr, h.1, h.2.1, h.2.2⟩

end Tamarin
